import Mathlib

/-!
Shallow embedding of `rag_engine.py` (class `RAGEngine`).

Python strings are modelled as lists of characters (`Str`), since Python
strings are sequences of code points.  The helpers `pyStrip`, `pySplitNN` and
`pySliceFrom` model `str.strip()`, `str.split` on the separators the
source uses, and the slice `a[e:]` with Python's negative-index semantics.

Floating-point numbers are idealised as real numbers; NumPy arrays are
modelled by `NpArray` (one constructor per dimensionality actually
occurring in the source: `np.array([])` is a 1-D empty array, the result
of `model.encode(list)` is a 2-D array).  The embedding model
(`SentenceTransformer`) is an external collaborator and enters as a
function parameter; a fallible query embedding is a function into
`Except`.
-/

namespace RagEngine

abbrev Str := List Char

/-- Python `str.strip()`: drop whitespace from both ends. -/
def pyStrip (l : Str) : Str :=
  ((l.dropWhile Char.isWhitespace).reverse.dropWhile Char.isWhitespace).reverse

/-- Python `text.split('\n\n')` (rag_engine.py line 29): greedy leftmost
non-overlapping splitting on the two-character separator, keeping empty
pieces. -/
def pySplitNN : Str → List Str
  | '\n' :: '\n' :: rest => [] :: pySplitNN rest
  | c :: rest =>
    match pySplitNN rest with
    | [] => [[c]]
    | p :: ps => (c :: p) :: ps
  | [] => [[]]

/-- The list `sentences = [s.strip() + '.' for s in para.split('.') if s.strip()]`
(rag_engine.py line 42); Python `para.split('.')` is splitting on every
occurrence of the one-character separator, keeping empty pieces. -/
def sentencesOf (para : Str) : List Str :=
  (para.splitOn '.').filterMap
    (fun s => if pyStrip s = [] then none else some (pyStrip s ++ ['.']))

/-- The sentence-accumulation loop of `chunk_text` (rag_engine.py lines
43-52): greedily accumulate sentences into `cur` while the running length
stays under 300, flushing `cur.strip()` onto `chunks` otherwise, and
flushing any non-empty remainder at the end. -/
def accumulateSentences (chunks : List Str) (cur : Str) : List Str → List Str
  | [] => if cur ≠ [] then chunks ++ [pyStrip cur] else chunks
  | sent :: rest =>
    if cur.length + sent.length < 300 then
      accumulateSentences chunks (cur ++ [' '] ++ sent) rest
    else
      accumulateSentences (if cur ≠ [] then chunks ++ [pyStrip cur] else chunks) sent rest

/-- The body of the `for para in paragraphs` loop of `chunk_text`
(rag_engine.py lines 33-54), acting on the chunk list built so far. -/
def processPara (minsize : ℕ) (chunks : List Str) (para : Str) : List Str :=
  if para.length < minsize then
    if ¬chunks.isEmpty ∧ (chunks.getLastD []).length < 200 then
      chunks.dropLast ++ [chunks.getLastD [] ++ [' '] ++ para]
    else
      chunks ++ [para]
  else if 500 < para.length then
    accumulateSentences chunks [] (sentencesOf para)
  else
    chunks ++ [para]

/-- Method `RAGEngine.chunk_text` (rag_engine.py lines 17-59). -/
def chunk_text (text : Str) (min_chunk_size : ℕ := 50) : List Str :=
  let paragraphs :=
    ((pySplitNN text).map pyStrip).filter (fun p => ¬p.isEmpty)
  let chunks := paragraphs.foldl (processPara min_chunk_size) []
  chunks.filter (fun c => min_chunk_size ≤ c.length)

/-- Dot product of two real vectors, modelling `np.dot` on equal-length
1-D arrays (the only way it is invoked in the source). -/
def dotR (v w : List ℝ) : ℝ :=
  (List.zipWith (fun a b => a * b) v w).sum

/-- The norm `np.linalg.norm` (Euclidean norm) of a 1-D array. -/
noncomputable def norm2 (v : List ℝ) : ℝ :=
  Real.sqrt (dotR v v)

/-- The literal `1e-10` of rag_engine.py line 117, idealised as the real
number 10⁻¹⁰. -/
noncomputable def npEps : ℝ := 1 / 10 ^ 10

/-- A NumPy array as it occurs in `RAGEngine`: `np.array([])` (a 1-D
empty array, stored by `build_index` on empty input) or the 2-D result
of `model.encode(list_of_chunks)`. -/
inductive NpArray : Type
  | arr1d (v : List ℝ)
  | arr2d (rows : List (List ℝ))

/-- The rows of the array after the `reshape(1, -1)` normalisation at
rag_engine.py lines 110-111: a 1-D vector becomes a single row. -/
def npRows : NpArray → List (List ℝ)
  | .arr1d v => [v]
  | .arr2d rows => rows

/-- Python `len(...)` of a NumPy array (its first dimension). -/
def npLen : NpArray → ℕ
  | .arr1d v => v.length
  | .arr2d rows => rows.length

/-- Errors raised by the modelled Python code itself. -/
inductive PyErr : Type
  | indexError

/-- Shape access `arr.shape[1]`: defined for a 2-D array; on a 1-D array the shape
tuple has length 1 and Python raises `IndexError`. -/
def npShape1 : NpArray → Except PyErr ℕ
  | .arr1d _ => .error .indexError
  | .arr2d rows => .ok (rows.getD 0 []).length

/-- Method `RAGEngine._cosine_similarity(vec1, vec2)` (rag_engine.py lines
108-117): per-row `dot(row, vec1) / (norm(vec1) * norm(row) + 1e-10)`. -/
noncomputable def cosineSimilarity (vec1 : List ℝ) (vec2 : NpArray) : List ℝ :=
  (npRows vec2).map (fun row => dotR row vec1 / (norm2 vec1 * norm2 row + npEps))

/-- The sort `np.argsort` on a 1-D array: a permutation of `0, ..., n-1` along
which the values are non-decreasing.  NumPy's tie order (default
introsort) is implementation-accidental; the model fixes the stable
insertion-sort order. -/
noncomputable def argsort (xs : List ℝ) : List ℕ :=
  letI : DecidableRel (fun i j : ℕ => xs.getD i 0 ≤ xs.getD j 0) :=
    Classical.decRel _
  List.insertionSort (fun i j : ℕ => xs.getD i 0 ≤ xs.getD j 0)
    (List.range xs.length)

/-- Python slice `a[e:]` for an integer `e` (used at rag_engine.py line
103 with `e = -k`): a negative start counts from the end and is clamped
at 0. -/
def pySliceFrom (e : Int) (xs : List α) : List α :=
  if e < 0 then xs.drop ((xs.length + e).toNat) else xs.drop e.toNat

/-- The selection `np.argsort(similarities)[-k:][::-1]` (rag_engine.py line 103). -/
noncomputable def topIndices (sims : List ℝ) (kc : Int) : List ℕ :=
  (pySliceFrom (-kc) (argsort sims)).reverse

/-- The mutable state of a `RAGEngine` instance: `self.chunks` and
`self.embeddings` (`None` before any build). -/
structure RAGState where
  chunks : List Str
  embeddings : Option NpArray

/-- Method `RAGEngine.build_index` (rag_engine.py lines 61-79).  The embedding
collaborator `model.encode` on a list of chunks is the parameter
`embedMany`; the prior state is fully replaced. -/
def build_index (embedMany : List Str → List (List ℝ)) (_st : RAGState)
    (chunks : List Str) : RAGState :=
  if chunks = [] then
    { chunks := chunks, embeddings := some (.arr1d []) }
  else
    { chunks := chunks, embeddings := some (.arr2d (embedMany chunks)) }

/-- Method `RAGEngine.retrieve` (rag_engine.py lines 81-106).  The fallible
query embedding `model.encode(query)` is the parameter `embed`; an
exception raised by the collaborator is an `Except.error` that
propagates. -/
noncomputable def retrieve (embed : Str → Except ε (List ℝ)) (st : RAGState)
    (query : Str) (k : Int) : Except ε (List Str) :=
  if st.chunks = [] then .ok []
  else
    match st.embeddings with
    | none => .ok []
    | some arr =>
      if npLen arr = 0 then .ok []
      else
        match embed query with
        | .error e => .error e
        | .ok qv =>
          .ok ((topIndices (cosineSimilarity qv arr)
                  (min k (st.chunks.length : Int))).map
                (fun i => st.chunks.getD i []))

/-- Method `RAGEngine.retrieve` in state-passing form: the same method body,
returning alongside the result (or propagated exception) the fields of
`self` as they stand when the call leaves.  No statement of the source
method assigns to `self.chunks` or `self.embeddings`, so every branch
returns the entry state. -/
noncomputable def retrieveSt (embed : Str → Except ε (List ℝ)) (st : RAGState)
    (query : Str) (k : Int) : Except ε (List Str) × RAGState :=
  if st.chunks = [] then (.ok [], st)
  else
    match st.embeddings with
    | none => (.ok [], st)
    | some arr =>
      if npLen arr = 0 then (.ok [], st)
      else
        match embed query with
        | .error e => (.error e, st)
        | .ok qv =>
          (.ok ((topIndices (cosineSimilarity qv arr)
                  (min k (st.chunks.length : Int))).map
                (fun i => st.chunks.getD i [])), st)

/-- The dictionary returned by `RAGEngine.get_stats`. -/
structure Stats where
  num_chunks : ℕ
  embedding_dim : ℕ
  model : ℕ

/-- Method `RAGEngine.get_stats` (rag_engine.py lines 119-125).  `modelDim` is
the collaborator call `model.get_sentence_embedding_dimension()`;
`embedding_dim` is `self.embeddings.shape[1]` when `self.embeddings` is
not `None`, which raises `IndexError` on a 1-D array. -/
def get_stats (st : RAGState) (modelDim : ℕ) : Except PyErr Stats :=
  match st.embeddings with
  | none => .ok ⟨st.chunks.length, 0, modelDim⟩
  | some arr => (npShape1 arr).map (fun d => ⟨st.chunks.length, d, modelDim⟩)

/-- The number of stored embedding vectors (0 when unbuilt;
`np.array([])` holds none). -/
def storedVecCount (st : RAGState) : ℕ :=
  match st.embeddings with
  | none => 0
  | some arr => npLen arr

/-! Concrete instances used by witnesses and counterexamples. -/

/-- The one-character chunk "a". -/
def chA : Str := ['a']

/-- The one-character chunk "b". -/
def chB : Str := ['b']

/-- A one-character query string. -/
def qOne : Str := ['q']

/-- A built index over a corpus of two chunks whose embedding vectors
are zero-dimensional (a degenerate but well-typed embedding). -/
def stTwo : RAGState :=
  { chunks := [chA, chB], embeddings := some (.arr2d [[], []]) }

/-- An embedding collaborator that always succeeds with the empty
vector. -/
def embedNil : Str → Except Unit (List ℝ) := fun _ => .ok []

/-- An embedding collaborator that always raises. -/
def embedFail : Str → Except Unit (List ℝ) := fun _ => .error ()

/-! ### Lemmas about the chunker -/

theorem length_dropWhile_le (p : Char → Bool) (l : Str) :
    (l.dropWhile p).length ≤ l.length := by
  induction l with
  | nil => simp
  | cons a t ih =>
    rw [List.dropWhile_cons]
    split
    · exact le_trans ih (Nat.le_succ _)
    · simp

theorem length_pyStrip_le (l : Str) : (pyStrip l).length ≤ l.length := by
  unfold pyStrip
  rw [List.length_reverse]
  calc ((l.dropWhile Char.isWhitespace).reverse.dropWhile Char.isWhitespace).length
      ≤ (l.dropWhile Char.isWhitespace).reverse.length := length_dropWhile_le _ _
    _ = (l.dropWhile Char.isWhitespace).length := List.length_reverse _
    _ ≤ l.length := length_dropWhile_le _ _

theorem accumulateSentences_mem (sents : List Str) :
    ∀ (chunks : List Str) (cur : Str) (c : Str),
      c ∈ accumulateSentences chunks cur sents →
      c ∈ chunks ∨ c.length ≤ 300 ∨ (∃ s ∈ sents, c = pyStrip s) ∨ c = pyStrip cur := by
  induction sents with
  | nil =>
    intro chunks cur c hc
    unfold accumulateSentences at hc
    split at hc
    · rcases List.mem_append.mp hc with h | h
      · exact Or.inl h
      · exact Or.inr (Or.inr (Or.inr (List.mem_singleton.mp h)))
    · exact Or.inl hc
  | cons sent rest ih =>
    intro chunks cur c hc
    unfold accumulateSentences at hc
    by_cases h : cur.length + sent.length < 300
    · rw [if_pos h] at hc
      rcases ih _ _ _ hc with h1 | h2 | ⟨s, hs, he⟩ | h4
      · exact Or.inl h1
      · exact Or.inr (Or.inl h2)
      · exact Or.inr (Or.inr (Or.inl ⟨s, List.mem_cons_of_mem _ hs, he⟩))
      · refine Or.inr (Or.inl ?_)
        rw [h4]
        calc (pyStrip (cur ++ [' '] ++ sent)).length
            ≤ (cur ++ [' '] ++ sent).length := length_pyStrip_le _
          _ = cur.length + 1 + sent.length := by simp; omega
          _ ≤ 300 := by omega
    · rw [if_neg h] at hc
      rcases ih _ _ _ hc with h1 | h2 | ⟨s, hs, he⟩ | h4
      · split at h1
        · rcases List.mem_append.mp h1 with h5 | h5
          · exact Or.inl h5
          · exact Or.inr (Or.inr (Or.inr (List.mem_singleton.mp h5)))
        · exact Or.inl h1
      · exact Or.inr (Or.inl h2)
      · exact Or.inr (Or.inr (Or.inl ⟨s, List.mem_cons_of_mem _ hs, he⟩))
      · exact Or.inr (Or.inr (Or.inl ⟨sent, List.mem_cons_self _ _, h4⟩))

/-! ### Claim theorems for the chunker -/

/-- C4: for every input text and every `min_chunk_size`, every chunk in
the sequence returned by `chunk_text` has length at least
`min_chunk_size`; the empty input produces an empty sequence. -/
theorem chunk_text_min_size (text : Str) (minsize : ℕ) :
    chunk_text [] minsize = [] ∧
    ∀ c ∈ chunk_text text minsize, minsize ≤ c.length := by
  constructor
  · rfl
  · intro c hc
    have h := (List.mem_filter.mp hc).2
    simpa using h

theorem chunk_text_min_size_witness :
    List.replicate 60 'a' ∈ chunk_text (List.replicate 60 'a') 50 ∧
    50 ≤ (List.replicate 60 'a').length :=
  ⟨by decide,
   (chunk_text_min_size (List.replicate 60 'a') 50).2 _ (by decide)⟩

/-- C5: a paragraph longer than 500 characters (and at least
`min_chunk_size` long, as any such paragraph is for the default of 50)
is re-split on `'.'` boundaries with a trailing period re-appended
(`sentencesOf`) and greedily accumulated into a buffer capped at 300
characters (`accumulateSentences`); consequently every chunk so
produced either is (the strip of) a single sentence or has length at
most 300 — a chunk built by accumulating more than one sentence never
exceeds 300 characters. -/
theorem long_paragraph_split (minsize : ℕ) (chunks : List Str) (para : Str)
    (hlong : 500 < para.length) (hmin : minsize ≤ para.length) :
    processPara minsize chunks para =
      accumulateSentences chunks [] (sentencesOf para) ∧
    ∀ c ∈ processPara minsize chunks para,
      c ∈ chunks ∨ c.length ≤ 300 ∨ ∃ s ∈ sentencesOf para, c = pyStrip s := by
  have heq : processPara minsize chunks para =
      accumulateSentences chunks [] (sentencesOf para) := by
    unfold processPara
    rw [if_neg (by omega : ¬ para.length < minsize), if_pos hlong]
  refine ⟨heq, ?_⟩
  intro c hc
  rw [heq] at hc
  rcases accumulateSentences_mem _ _ _ _ hc with h | h | h | h
  · exact Or.inl h
  · exact Or.inr (Or.inl h)
  · exact Or.inr (Or.inr h)
  · refine Or.inr (Or.inl ?_)
    rw [h]
    simp [pyStrip]

theorem long_paragraph_split_witness :
    processPara 50 [] (List.replicate 501 'a') =
      accumulateSentences [] [] (sentencesOf (List.replicate 501 'a')) ∧
    ∀ c ∈ processPara 50 [] (List.replicate 501 'a'),
      c ∈ ([] : List Str) ∨ c.length ≤ 300 ∨
        ∃ s ∈ sentencesOf (List.replicate 501 'a'), c = pyStrip s :=
  long_paragraph_split 50 [] (List.replicate 501 'a')
    (by rw [List.length_replicate]; omega) (by rw [List.length_replicate]; omega)

/-! ### Lemmas about the similarity scores -/

theorem dotR_nil_left (w : List ℝ) : dotR [] w = 0 := rfl

theorem dotR_nil_right (v : List ℝ) : dotR v [] = 0 := by
  cases v <;> rfl

theorem dotR_cons_cons (a b : ℝ) (v w : List ℝ) :
    dotR (a :: v) (b :: w) = a * b + dotR v w := by
  simp [dotR]

theorem dotR_self_nonneg (v : List ℝ) : 0 ≤ dotR v v := by
  induction v with
  | nil => simp [dotR]
  | cons a t ih =>
    rw [dotR_cons_cons]
    nlinarith [mul_self_nonneg a]

/-- Cauchy-Schwarz for `dotR`. -/
theorem dotR_sq_le (v w : List ℝ) : dotR v w ^ 2 ≤ dotR v v * dotR w w := by
  induction v generalizing w with
  | nil => simp [dotR_nil_left]
  | cons a t ih =>
    cases w with
    | nil => simp [dotR_nil_right]
    | cons b u =>
      have h1 := ih u
      have h2 := dotR_self_nonneg t
      have h3 := dotR_self_nonneg u
      rw [dotR_cons_cons, dotR_cons_cons, dotR_cons_cons]
      rcases eq_or_lt_of_le h3 with h0 | hpos
      · have hD : dotR t u = 0 := by nlinarith [sq_nonneg (dotR t u)]
        rw [hD]
        nlinarith [mul_nonneg h2 (mul_self_nonneg b)]
      · have hkey : 0 ≤ (dotR t t * dotR u u - dotR t u ^ 2) *
            (b * b + dotR u u) := by
          have : (0:ℝ) ≤ b * b + dotR u u := by nlinarith [mul_self_nonneg b]
          nlinarith
        nlinarith [sq_nonneg (a * dotR u u - b * dotR t u), hpos]

theorem norm2_nonneg (v : List ℝ) : 0 ≤ norm2 v :=
  Real.sqrt_nonneg _

theorem abs_dotR_le (v w : List ℝ) : |dotR v w| ≤ norm2 v * norm2 w := by
  unfold norm2
  rw [← Real.sqrt_mul (dotR_self_nonneg v), ← Real.sqrt_sq_eq_abs]
  exact Real.sqrt_le_sqrt (dotR_sq_le v w)

theorem npEps_pos : 0 < npEps := by
  unfold npEps
  norm_num

/-- C6: every Relevance Score `retrieve` computes — an entry of
`cosineSimilarity`, i.e. `dot(chunk_vec, query_vec) /
(norm(query_vec) * norm(chunk_vec) + 1e-10)` — is a real number in
the interval `[-1, 1]`, including for degenerate zero-vectors. -/
theorem cosineSimilarity_bounds (vec1 : List ℝ) (vec2 : NpArray) (s : ℝ)
    (hs : s ∈ cosineSimilarity vec1 vec2) : -1 ≤ s ∧ s ≤ 1 := by
  rcases List.mem_map.mp hs with ⟨row, _, rfl⟩
  have hd : 0 < norm2 vec1 * norm2 row + npEps := by
    have := mul_nonneg (norm2_nonneg vec1) (norm2_nonneg row)
    have := npEps_pos
    linarith
  have habs : |dotR row vec1 / (norm2 vec1 * norm2 row + npEps)| ≤ 1 := by
    rw [abs_div, abs_of_pos hd]
    rw [div_le_one hd]
    calc |dotR row vec1| ≤ norm2 row * norm2 vec1 := abs_dotR_le row vec1
      _ = norm2 vec1 * norm2 row := mul_comm _ _
      _ ≤ norm2 vec1 * norm2 row + npEps := by linarith [npEps_pos]
  exact abs_le.mp habs

theorem cosineSimilarity_bounds_witness :
    (0 : ℝ) ∈ cosineSimilarity [] (NpArray.arr2d [[]]) ∧
    (-1 ≤ (0 : ℝ) ∧ (0 : ℝ) ≤ 1) :=
  ⟨by simp [cosineSimilarity, npRows, dotR],
   cosineSimilarity_bounds [] (NpArray.arr2d [[]]) 0
     (by simp [cosineSimilarity, npRows, dotR])⟩

/-! ### Lemmas about `argsort` and top-k selection -/

theorem argsort_length (xs : List ℝ) : (argsort xs).length = xs.length := by
  unfold argsort
  rw [List.length_insertionSort, List.length_range]

theorem argsort_sorted (xs : List ℝ) :
    List.Pairwise (fun i j => xs.getD i 0 ≤ xs.getD j 0) (argsort xs) := by
  unfold argsort
  letI : DecidableRel (fun i j : ℕ => xs.getD i 0 ≤ xs.getD j 0) :=
    Classical.decRel _
  haveI ht : IsTotal ℕ (fun i j : ℕ => xs.getD i 0 ≤ xs.getD j 0) :=
    ⟨fun a b => le_total _ _⟩
  haveI htr : IsTrans ℕ (fun i j : ℕ => xs.getD i 0 ≤ xs.getD j 0) :=
    ⟨fun a b c hab hbc => le_trans hab hbc⟩
  exact List.sorted_insertionSort _ _

theorem pySliceFrom_sublist (e : Int) (xs : List α) :
    (pySliceFrom e xs).Sublist xs := by
  unfold pySliceFrom
  split <;> exact List.drop_sublist _ _

theorem topIndices_pairwise (sims : List ℝ) (kc : Int) :
    List.Pairwise (fun i j => sims.getD j 0 ≤ sims.getD i 0)
      (topIndices sims kc) := by
  unfold topIndices
  rw [List.pairwise_reverse]
  exact (argsort_sorted sims).sublist (pySliceFrom_sublist _ _)

theorem topIndices_length (sims : List ℝ) (kc : Int) (h1 : 0 < kc)
    (h2 : kc ≤ (sims.length : Int)) :
    ((topIndices sims kc).length : Int) = kc := by
  unfold topIndices pySliceFrom
  rw [List.length_reverse]
  rw [if_pos (by omega : -kc < 0), List.length_drop, argsort_length]
  omega

theorem cosineSimilarity_length (vec1 : List ℝ) (rows : List (List ℝ)) :
    (cosineSimilarity vec1 (NpArray.arr2d rows)).length = rows.length := by
  simp [cosineSimilarity, npRows]

/-! ### Evaluation of `retrieve` on a concrete two-chunk index -/

theorem simsTwo : cosineSimilarity [] (NpArray.arr2d [[], []]) = [0, 0] := by
  simp [cosineSimilarity, npRows, dotR]

theorem argsortTwo : argsort [(0:ℝ), 0] = [0, 1] := by
  unfold argsort
  have h2 : List.range (List.length [(0:ℝ), 0]) = [0, 1] := rfl
  rw [h2]
  simp [List.getD]

theorem retrieveTwoFive : retrieve embedNil stTwo qOne 5 = Except.ok [chB, chA] := by
  have hembs : stTwo.embeddings = some (NpArray.arr2d [[], []]) := rfl
  have hmin : min (5 : Int) (List.length stTwo.chunks : Int) = 2 := by decide
  simp [retrieve, hembs, embedNil, npLen, topIndices, hmin, simsTwo, argsortTwo,
    pySliceFrom, stTwo, chA, chB, List.getD]

theorem retrieveTwoZero : retrieve embedNil stTwo qOne 0 = Except.ok [chB, chA] := by
  have hembs : stTwo.embeddings = some (NpArray.arr2d [[], []]) := rfl
  have hmin : min (0 : Int) (List.length stTwo.chunks : Int) = 0 := by decide
  simp [retrieve, hembs, embedNil, npLen, topIndices, hmin, simsTwo, argsortTwo,
    pySliceFrom, stTwo, chA, chB, List.getD]

/-! ### Claim theorems for the retriever and the index -/

/-- C1, counterexample to the unrestricted claim: on a built corpus of
2 chunks, a requested `k = 0` does not return `min(0, 2) = 0` chunks —
Python's slice `[-0:]` is the whole array, so all 2 chunks come back. -/
theorem retrieve_topk_counterexample :
    retrieve embedNil stTwo qOne 0 = Except.ok [chB, chA] ∧
    ((([chB, chA] : List Str).length : Int) ≠
      min 0 ((stTwo.chunks.length : ℕ) : Int)) :=
  ⟨retrieveTwoZero, by decide⟩

/-- C1 (amended to requested `k ≥ 1`): on an index built over a corpus
of `N` chunks (one stored vector per chunk) whose query embedding
succeeds, `retrieve q k` returns exactly `min k N` chunks. -/
theorem retrieve_topk_card (embed : Str → Except ε (List ℝ)) (st : RAGState)
    (q : Str) (k : Int) (qv : List ℝ) (rows : List (List ℝ))
    (hemb : st.embeddings = some (.arr2d rows))
    (halign : rows.length = st.chunks.length)
    (hq : embed q = .ok qv) (hk : 1 ≤ k) :
    ∃ res, retrieve embed st q k = .ok res ∧
      (res.length : Int) = min k (st.chunks.length : Int) := by
  unfold retrieve
  by_cases hc : st.chunks = []
  · rw [if_pos hc]
    refine ⟨[], rfl, ?_⟩
    rw [hc]
    simp
    omega
  · rw [if_neg hc]
    have hn : st.chunks.length ≠ 0 := fun h => hc (List.length_eq_zero.mp h)
    have h0 : ¬ npLen (NpArray.arr2d rows) = 0 := by
      simp only [npLen]
      omega
    simp only [hemb, h0, if_false, hq]
    refine ⟨_, rfl, ?_⟩
    rw [List.length_map]
    rw [topIndices_length _ _ (by omega) ?hle]
    case hle =>
      rw [cosineSimilarity_length, halign]
      omega

theorem retrieve_topk_card_witness :
    ∃ res, retrieve embedNil stTwo qOne 5 = .ok res ∧
      (res.length : Int) = min 5 (stTwo.chunks.length : Int) :=
  retrieve_topk_card embedNil stTwo qOne 5 [] [[], []] rfl rfl rfl (by omega)

/-- C2: whenever `retrieve` returns a sequence of chunks, that sequence
is the corpus read off along a list of indices whose Relevance Scores
(`cosineSimilarity` of the query vector with the stored vectors) are
non-increasing — descending score order, not original document order. -/
theorem retrieve_score_monotone (embed : Str → Except ε (List ℝ))
    (st : RAGState) (q : Str) (k : Int) (arr : NpArray) (qv : List ℝ)
    (res : List Str) (hemb : st.embeddings = some arr)
    (hq : embed q = .ok qv) (hr : retrieve embed st q k = .ok res) :
    ∃ idxs : List ℕ,
      res = idxs.map (fun i => st.chunks.getD i []) ∧
      List.Pairwise (fun i j =>
        (cosineSimilarity qv arr).getD j 0 ≤
        (cosineSimilarity qv arr).getD i 0) idxs := by
  unfold retrieve at hr
  by_cases hc : st.chunks = []
  · rw [if_pos hc] at hr
    refine ⟨[], ?_, List.Pairwise.nil⟩
    injection hr with hr
    rw [← hr]
    rfl
  · rw [if_neg hc] at hr
    simp only [hemb] at hr
    by_cases h0 : npLen arr = 0
    · rw [if_pos h0] at hr
      refine ⟨[], ?_, List.Pairwise.nil⟩
      injection hr with hr
      rw [← hr]
      rfl
    · rw [if_neg h0, hq] at hr
      injection hr with hr
      exact ⟨topIndices (cosineSimilarity qv arr) (min k (st.chunks.length : Int)),
        hr.symm, topIndices_pairwise _ _⟩

theorem retrieve_score_monotone_witness :
    ∃ idxs : List ℕ,
      ([chB, chA] : List Str) = idxs.map (fun i => stTwo.chunks.getD i []) ∧
      List.Pairwise (fun i j =>
        (cosineSimilarity [] (NpArray.arr2d [[], []])).getD j 0 ≤
        (cosineSimilarity [] (NpArray.arr2d [[], []])).getD i 0) idxs :=
  retrieve_score_monotone embedNil stTwo qOne 5 (NpArray.arr2d [[], []]) []
    [chB, chA] rfl rfl retrieveTwoFive

/-- C3: on an index whose corpus is empty, `retrieve` returns the empty
sequence whatever the query, the requested `k`, and the embedding
collaborator — the statement holds even for a collaborator that always
raises, so the collaborator is observably not invoked on that call. -/
theorem retrieve_empty_corpus (embed : Str → Except ε (List ℝ))
    (st : RAGState) (q : Str) (k : Int) (hc : st.chunks = []) :
    retrieve embed st q k = .ok [] := by
  unfold retrieve
  rw [if_pos hc]

theorem retrieve_empty_corpus_witness :
    retrieve embedFail { chunks := [], embeddings := none } qOne 3 = .ok [] :=
  retrieve_empty_corpus embedFail { chunks := [], embeddings := none } qOne 3 rfl

/-- C7, counterexample to "build raises on a vector-count mismatch":
`build_index` performs no consistency check — with a collaborator
returning 0 vectors for 1 chunk it silently stores the mismatched
state instead of failing. -/
theorem build_index_mismatch_counterexample :
    (build_index (fun _ => []) { chunks := [], embeddings := none } [chA]).chunks.length = 1 ∧
    storedVecCount (build_index (fun _ => []) { chunks := [], embeddings := none } [chA]) = 0 :=
  ⟨rfl, rfl⟩

/-- C7 (amended): `build_index` performs no vector-count check and
stores whatever the collaborator returns; when the collaborator returns
one vector per chunk, the stored vector count after `build_index chunks`
equals `len(chunks)`, with both empty for empty input. -/
theorem build_index_alignment (embedMany : List Str → List (List ℝ))
    (st : RAGState) (chunks : List Str)
    (h : (embedMany chunks).length = chunks.length) :
    (build_index embedMany st chunks).chunks = chunks ∧
    storedVecCount (build_index embedMany st chunks) = chunks.length := by
  unfold build_index storedVecCount
  by_cases hc : chunks = []
  · rw [if_pos hc]
    subst hc
    exact ⟨rfl, rfl⟩
  · rw [if_neg hc]
    exact ⟨rfl, by simp [npLen, h]⟩

theorem build_index_alignment_witness :
    (build_index (fun cs => cs.map (fun _ => [])) { chunks := [], embeddings := none } [chA]).chunks = [chA] ∧
    storedVecCount (build_index (fun cs => cs.map (fun _ => []))
      { chunks := [], embeddings := none } [chA]) = List.length [chA] :=
  build_index_alignment (fun cs => cs.map (fun _ => []))
    { chunks := [], embeddings := none } [chA] rfl

/-- C8, the failing case: after `build_index` on an empty chunk list the
stored embeddings are the 1-D empty array `np.array([])`, whose shape
tuple is `(0,)`; `get_stats` evaluates `self.embeddings.shape[1]` and
raises `IndexError` instead of returning integers. -/
theorem get_stats_empty_build_raises (embedMany : List Str → List (List ℝ))
    (modelDim : ℕ) :
    get_stats (build_index embedMany { chunks := [], embeddings := none } [])
      modelDim = .error .indexError :=
  rfl

/-- C9: on a built non-empty index, a failure of the embedding
collaborator while embedding the query propagates out of `retrieve`
unchanged — no fallback result is substituted. -/
theorem retrieve_propagates_embed_error (embed : Str → Except ε (List ℝ))
    (st : RAGState) (q : Str) (k : Int) (arr : NpArray) (e : ε)
    (hc : st.chunks ≠ []) (hemb : st.embeddings = some arr)
    (h0 : npLen arr ≠ 0) (hq : embed q = .error e) :
    retrieve embed st q k = .error e := by
  unfold retrieve
  rw [if_neg hc]
  simp only [hemb, h0, if_false, hq]

theorem retrieve_propagates_embed_error_witness :
    retrieve embedFail stTwo qOne 3 = .error () :=
  retrieve_propagates_embed_error embedFail stTwo qOne 3
    (NpArray.arr2d [[], []]) () (by decide) rfl (by decide) rfl

/-- C10: `retrieve` is read-only on the index state: the state-passing
form of the method leaves `self.chunks` and `self.embeddings` exactly
as they were, whether it returns or raises, and its result is that of
`retrieve`. -/
theorem retrieveSt_frame (embed : Str → Except ε (List ℝ)) (st : RAGState)
    (q : Str) (k : Int) :
    (retrieveSt embed st q k).2 = st ∧
    (retrieveSt embed st q k).1 = retrieve embed st q k := by
  unfold retrieveSt retrieve
  by_cases hc : st.chunks = []
  · rw [if_pos hc, if_pos hc]
    exact ⟨rfl, rfl⟩
  · rw [if_neg hc, if_neg hc]
    cases hembs : st.embeddings with
    | none => exact ⟨rfl, rfl⟩
    | some arr =>
      by_cases h0 : npLen arr = 0
      · simp only [if_pos h0]
        exact ⟨trivial, trivial⟩
      · simp only [if_neg h0]
        cases hq : embed q with
        | error e => exact ⟨rfl, rfl⟩
        | ok qv => exact ⟨rfl, rfl⟩

end RagEngine
